import Mathlib

/-!
Shallow embedding of the Reddit ingestion-and-ranking pipeline of
`tradingagents/dataflows/reddit_utils.py`:
the persistent merge engine (`RedditDataDownloader.save_posts_to_jsonl`),
the relevance / popularity scorers, the per-ticker analyzer
(`StockPopularityAnalyzer.analyze_stock_popularity`) and the ranker
(`StockPopularityAnalyzer.generate_stock_popularity_ranking`).

Python dictionaries (JSON records) are embedded as association lists from
field names to a JSON-like `Value` type; floating point arithmetic is
embedded as exact rational arithmetic; `time.time()` / `datetime.now()`
are passed in explicitly as parameters.
-/

/-- JSON-like values stored in a record's fields. -/
inductive Value where
  | str (s : String)
  | num (q : ℚ)
  | bool (b : Bool)
  | null
deriving DecidableEq, Repr

/-- One social post / record: a Python dict from field names to values. -/
abbrev Post := List (String × Value)

/-- `dget post f` is Python `post.get(f)`: the value of the first entry
named `f`, or `none` when the field is absent. -/
def dget : Post → String → Option Value
  | [], _ => none
  | (k, v) :: rest, f => if k = f then some v else dget rest f

/-- Python `post.get(f, d)`: field lookup with a default. -/
def dgetD (post : Post) (f : String) (d : Value) : Value :=
  (dget post f).getD d

/-- Python `post[f] = v`: replace the first entry named `f` in place, or
append a new entry at the end when the field is absent. -/
def dictSet : Post → String → Value → Post
  | [], f, v => [(f, v)]
  | (k, w) :: rest, f, v =>
      if k = f then (f, v) :: rest else (k, w) :: dictSet rest f v

/-- Python `base.update(overlay)`: set every field of `overlay` on `base`,
in order. -/
def dictUpdate (base overlay : Post) : Post :=
  overlay.foldl (fun b kv => dictSet b kv.1 kv.2) base

/-- Numeric field access used by the scorers: Python `post.get(f, d)` where
the callers expect a number.  Non-numeric values fall back to the default
(such fields never hold non-numbers in the JSON data this code writes). -/
def getQ (post : Post) (f : String) (d : ℚ) : ℚ :=
  match dget post f with
  | some (Value.num q) => q
  | _ => d

/-- String field access used by the scorers: Python `post.get(f, "")`. -/
def getS (post : Post) (f : String) : String :=
  match dget post f with
  | some (Value.str s) => s
  | _ => ""

/-- A community collection: a Python dict from record id to record,
in insertion order. -/
abbrev Collection := List (Value × Post)

/-- Dict lookup on a collection keyed by record id. -/
def alookup : Collection → Value → Option Post
  | [], _ => none
  | (k, p) :: rest, q => if k = q then some p else alookup rest q

/-- Dict assignment on a collection: replace in place or append. -/
def assocSet : Collection → Value → Post → Collection
  | [], k, p => [(k, p)]
  | (k', p') :: rest, k, p =>
      if k' = k then (k, p) :: rest else (k', p') :: assocSet rest k p

/-- Generic dict lookup for the fixed string-keyed configuration tables. -/
def slookup {α : Type} : List (String × α) → String → Option α
  | [], _ => none
  | (k, v) :: rest, q => if k = q then some v else slookup rest q

/-- ASCII lower-casing of one character (Python `str.lower` on the
ASCII data this pipeline handles). -/
def toLowerChar (c : Char) : Char :=
  if c.isUpper then c.toLower else c

/-- ASCII upper-casing of one character. -/
def toUpperChar (c : Char) : Char :=
  if c.isLower then c.toUpper else c

/-- Python `s.lower()`. -/
def lowerStr (s : String) : String :=
  String.mk (s.data.map toLowerChar)

/-- Python `s.upper()`. -/
def upperStr (s : String) : String :=
  String.mk (s.data.map toUpperChar)

/-- Regex word character (`\w`): letter, digit or underscore. -/
def isWordChar (c : Char) : Bool :=
  c.isAlphanum || c = '_'

/-- Python `needle in hay` on strings: substring containment, as character
lists. -/
def containsSub (needle hay : List Char) : Bool :=
  (List.range (hay.length + 1)).any fun i => needle.isPrefixOf (hay.drop i)

/-- Whether the character at position `i` of `hay` is a word character
(out-of-range positions count as non-word). -/
def isWordAt (hay : List Char) (i : ℕ) : Bool :=
  match hay.get? i with
  | some c => isWordChar c
  | none => false

/-- Regex `\b` at position `i` of `hay`: the word-ness of the text changes
between positions `i - 1` and `i`. -/
def boundaryAt (hay : List Char) (i : ℕ) : Bool :=
  (if i = 0 then false else isWordAt hay (i - 1)) != isWordAt hay i

/-- `re.search(r"\b" + re.escape(needle) + r"\b", hay)`: some occurrence of
`needle` in `hay` is delimited by word boundaries on both sides. -/
def wordMatch (needle hay : List Char) : Bool :=
  (List.range (hay.length + 1)).any fun i =>
    needle.isPrefixOf (hay.drop i) && boundaryAt hay i &&
      boundaryAt hay (i + needle.length)

/-- Python `s.split(sep)` for a non-empty separator, on character lists:
scan left to right, cutting at each (non-overlapping) occurrence of the
separator.  The `fuel` argument (structurally decreasing, started at the
length of the scanned list, which it never falls below) only makes the
recursion structural. -/
def splitOnSep (sep : List Char) : ℕ → List Char → List Char →
    List (List Char)
  | _, [], acc => [acc.reverse]
  | 0, l, acc => [acc.reverse ++ l]
  | fuel + 1, c :: rest, acc =>
      if sep ≠ [] ∧ sep.isPrefixOf (c :: rest) then
        acc.reverse ::
          splitOnSep sep fuel (List.drop (sep.length - 1) rest) []
      else
        splitOnSep sep fuel rest (c :: acc)

/-- Python `s.split(sep)` on strings. -/
def splitOn (s sep : String) : List String :=
  (splitOnSep sep.data s.data.length s.data []).map String.mk

/-- Python `s.strip()`: drop leading and trailing whitespace. -/
def pstrip (s : String) : String :=
  String.mk (((s.data.dropWhile Char.isWhitespace).reverse.dropWhile
    Char.isWhitespace).reverse)

/-- The fixed `ticker_to_company` symbol table of `reddit_utils.py`. -/
def ticker_to_company : List (String × String) :=
  [("AAPL", "Apple"), ("MSFT", "Microsoft"), ("GOOGL", "Google"),
   ("AMZN", "Amazon"), ("TSLA", "Tesla"), ("NVDA", "Nvidia"),
   ("TSM", "Taiwan Semiconductor Manufacturing Company OR TSMC"),
   ("JPM", "JPMorgan Chase OR JP Morgan"),
   ("JNJ", "Johnson & Johnson OR JNJ"), ("V", "Visa"), ("WMT", "Walmart"),
   ("META", "Meta OR Facebook"), ("AMD", "AMD"), ("INTC", "Intel"),
   ("QCOM", "Qualcomm"), ("BABA", "Alibaba"), ("ADBE", "Adobe"),
   ("NFLX", "Netflix"), ("CRM", "Salesforce"), ("PYPL", "PayPal"),
   ("PLTR", "Palantir"), ("MU", "Micron"), ("SQ", "Block OR Square"),
   ("ZM", "Zoom"), ("CSCO", "Cisco"), ("SHOP", "Shopify"),
   ("ORCL", "Oracle"), ("X", "Twitter OR X"), ("SPOT", "Spotify"),
   ("AVGO", "Broadcom"), ("ASML", "ASML "), ("TWLO", "Twilio"),
   ("SNAP", "Snap Inc."), ("TEAM", "Atlassian"), ("SQSP", "Squarespace"),
   ("UBER", "Uber"), ("ROKU", "Roku"), ("PINS", "Pinterest")]

/-- The fixed stock-focused community list `STOCK_SUBREDDITS`. -/
def STOCK_SUBREDDITS : List String :=
  ["wallstreetbets", "stocks", "investing", "StockMarket",
   "SecurityAnalysis", "ValueInvesting"]

/-- The fixed per-community weight table `SUBREDDIT_WEIGHTS`. -/
def SUBREDDIT_WEIGHTS : List (String × ℚ) :=
  [("wallstreetbets", 1), ("stocks", 4/5), ("investing", 7/10),
   ("StockMarket", 3/5), ("SecurityAnalysis", 1/2), ("ValueInvesting", 2/5)]

/-- `StockPopularityAnalyzer.generate_stock_keywords`: the base forms of the
ticker plus the company-name aliases from `ticker_to_company` (multiple
aliases separated by the literal `" OR "`), deduplicated.  Python returns
`list(set(keywords))` in unspecified order; the embedding deduplicates,
which agrees with the code up to order.  `aliasKeywords` is the
conditionally-appended company-name segment of the keyword list: alias
parts split on `" OR "` and stripped when the separator occurs, the whole
alias string otherwise, nothing for a ticker outside the table. -/
def aliasKeywords (ticker : String) : List String :=
  match slookup ticker_to_company ticker with
  | some company_names =>
      if containsSub " OR ".data company_names.data then
        (splitOn company_names " OR ").map pstrip
      else
        [company_names]
  | none => []

def generate_stock_keywords (ticker : String) : List String :=
  ([ticker, "$" ++ ticker, "$" ++ upperStr ticker, upperStr ticker,
    lowerStr ticker] ++ aliasKeywords ticker).dedup

/-- One keyword's contribution to the two match counters of
`calculate_post_relevance`: `+1` on the title counter when the lower-cased
keyword is a substring of the lower-cased title, `+2` more when it also
matches at word boundaries; `+1` on the body counter for a substring match
in the body and `+1` more for a word-boundary match in the body. -/
def relevanceStep (title content : List Char) (counters : ℕ × ℕ)
    (keyword : String) : ℕ × ℕ :=
  let k := (lowerStr keyword).data
  let tm := counters.1 + (if containsSub k title then 1 else 0) +
    (if wordMatch k title then 2 else 0)
  let cm := counters.2 + (if containsSub k content then 1 else 0) +
    (if wordMatch k content then 1 else 0)
  (tm, cm)

/-- `StockPopularityAnalyzer.calculate_post_relevance`: accumulate the
title / body match counters over all keywords, then score
`min(title_matches * 0.3, 1.0) + min(content_matches * 0.1, 0.7)`,
capped at `1.0`. -/
def calculate_post_relevance (post : Post) (keywords : List String) : ℚ :=
  let title := (lowerStr (getS post "title")).data
  let content := (lowerStr (getS post "selftext")).data
  let counters := keywords.foldl (relevanceStep title content) (0, 0)
  let title_score := min ((counters.1 : ℚ) * (3/10)) 1
  let content_score := min ((counters.2 : ℚ) * (1/10)) (7/10)
  min (title_score + content_score) 1

/-- `StockPopularityAnalyzer.calculate_post_popularity_score`; the Python
`time.time()` call is the explicit parameter `now` (seconds since epoch). -/
def calculate_post_popularity_score (now : ℚ) (post : Post)
    (subreddit_weight : ℚ) : ℚ :=
  let ups := getQ post "ups" 0
  let comments := getQ post "num_comments" 0
  let score := getQ post "score" 0
  let upvote_ratio := getQ post "upvote_ratio" (1/2)
  let created_utc := getQ post "created_utc" 0
  let time_diff_hours := (now - created_utc) / 3600
  let time_decay := max (1/10) (1 / (1 + time_diff_hours / 24))
  let engagement_score := ups * 1 + comments * (4/5) + score * (3/5)
  let quality_score := upvote_ratio * (1/2)
  (engagement_score + quality_score) * subreddit_weight * time_decay

/-- The fixed "volatile" field list of `save_posts_to_jsonl` whose change
triggers an update. -/
def key_fields : List String :=
  ["title", "selftext", "score", "ups", "num_comments", "upvote_ratio"]

/-- `save_posts_to_jsonl`'s change test: some volatile field of the
incoming record differs from the stored record. -/
def hasChanges (post existing : Post) : Bool :=
  key_fields.any fun f => dget post f != dget existing f

/-- The `{new, updated, skipped}` counters reported by one merge call. -/
structure MergeStats where
  new : ℕ
  updated : ℕ
  skipped : ℕ
deriving DecidableEq, Repr

/-- One iteration of the merge loop of `save_posts_to_jsonl`: a record
without an `id` is skipped silently; a record with a fresh `id` is stamped
`first_saved = now` and inserted; a record with a known `id` either
overlays the stored record and stamps `last_updated = now` (when a volatile
field changed) or is counted as a skip. `nowIso` is the
`datetime.now().isoformat()` string of the merge call. -/
def mergeOne (nowIso : String) (st : Collection × MergeStats) (post : Post) :
    Collection × MergeStats :=
  match dget post "id" with
  | none => st
  | some pid =>
    match alookup st.1 pid with
    | some existing =>
        if hasChanges post existing then
          (assocSet st.1 pid
            (dictSet (dictUpdate existing post) "last_updated"
              (Value.str nowIso)),
           { st.2 with updated := st.2.updated + 1 })
        else
          (st.1, { st.2 with skipped := st.2.skipped + 1 })
    | none =>
        (assocSet st.1 pid (dictSet post "first_saved" (Value.str nowIso)),
         { st.2 with new := st.2.new + 1 })

/-- The merge loop of `RedditDataDownloader.save_posts_to_jsonl`: fold the
incoming batch over the loaded collection, returning the merged collection
and the reported counters. -/
def mergePosts (nowIso : String) (existing : Collection)
    (posts : List Post) : Collection × MergeStats :=
  posts.foldl (mergeOne nowIso) (existing, ⟨0, 0, 0⟩)

/-- The loading phase of `save_posts_to_jsonl`: parse the file line by
line (a `none` line is a blank or malformed-JSON line, skipped with a
warning), keep only records carrying an `id`, and key them by that id
(later duplicate lines overwrite earlier ones, as in a Python dict). -/
def loadCollection (lines : List (Option Post)) : Collection :=
  lines.foldl
    (fun c l =>
      match l with
      | none => c
      | some post =>
        match dget post "id" with
        | none => c
        | some k => assocSet c k post)
    []

/-- One scored record of an analysis result (`post_result` in
`analyze_stock_popularity`). -/
structure PostResult where
  id : Option Value
  title : Option Value
  subreddit : String
  score : Value
  comments : Value
  upvotes : Value
  relevance : ℚ
  popularity_score : ℚ
  url : Value
  created_utc : Option Value
deriving DecidableEq, Repr

/-- Per-community bucket of an analysis result (`subreddit_data`). -/
structure SubredditData where
  name : String
  mentions : ℕ
  popularity_score : ℚ
  posts : List PostResult
deriving DecidableEq, Repr

/-- The analysis result of `analyze_stock_popularity` for one ticker.
The `timestamp` field is the `datetime.now().isoformat()` string. -/
structure AnalysisResult where
  ticker : String
  keywords : List String
  analysis_period_days : ℚ
  total_mentions : ℕ
  total_popularity_score : ℚ
  subreddit_breakdown : List (String × SubredditData)
  top_posts : List PostResult
  average_sentiment : ℚ
  timestamp : String
  average_popularity_score : ℚ
deriving DecidableEq, Repr

/-- Python `max(xs, key=key)` over `x :: xs`: keep the current maximum,
replacing it only on a strictly greater key, so the first maximal element
wins. -/
def pymaxBy {α β : Type} [LinearOrder β] (key : α → β) (x : α)
    (xs : List α) : α :=
  xs.foldl (fun best y => if key best < key y then y else best) x

/-- Python's stable `list.sort(key=key, reverse=True)`: a stable sort
descending by `key`. -/
def pysortDesc {α : Type} (key : α → ℚ) (l : List α) : List α :=
  l.insertionSort fun a b => key b ≤ key a

/-- The per-record body of the scan loop of `analyze_stock_popularity`:
drop the record when `created_utc` is before the cutoff or its relevance
is below the threshold, otherwise build the scored `post_result`. -/
def processPost (now cutoff min_relevance weight : ℚ)
    (keywords : List String) (name : String) (post : Post) :
    Option PostResult :=
  if getQ post "created_utc" 0 < cutoff then none
  else
    let relevance := calculate_post_relevance post keywords
    if relevance < min_relevance then none
    else some
      { id := dget post "id"
        title := dget post "title"
        subreddit := name
        score := dgetD post "score" (Value.num 0)
        comments := dgetD post "num_comments" (Value.num 0)
        upvotes := dgetD post "ups" (Value.num 0)
        relevance := relevance
        popularity_score := calculate_post_popularity_score now post weight
        url := dgetD post "permalink" (Value.str "")
        created_utc := dget post "created_utc" }

/-- The community weight used by the analyzer:
`SUBREDDIT_WEIGHTS.get(name, 0.5)`. -/
def weightOf (name : String) : ℚ :=
  (slookup SUBREDDIT_WEIGHTS name).getD (1/2)

/-- The collection file path the analyzer reads for a community:
`<data_dir>/company_news/<name>.jsonl`. -/
def companyNewsPath (data_dir name : String) : String :=
  data_dir ++ "/company_news/" ++ name ++ ".jsonl"

/-- The records of one community's collection file that survive the scan
loop of `analyze_stock_popularity`: one `Option Post` per file line
(`none` for a blank or malformed line, skipped), filtered and scored by
`processPost`. -/
def survivingPosts (now cutoff min_relevance : ℚ) (keywords : List String)
    (name : String) (lines : List (Option Post)) : List PostResult :=
  lines.filterMap fun l =>
    l.bind (processPost now cutoff min_relevance (weightOf name)
      keywords name)

/-- The per-community body of `analyze_stock_popularity`: a missing
collection file skips the community entirely (`none`); otherwise the
surviving scored records are bucketed.  The filesystem is the explicit
map `fs` from paths to file contents. -/
def processSubreddit (fs : String → Option (List (Option Post)))
    (data_dir : String) (now cutoff min_relevance : ℚ)
    (keywords : List String) (name : String) : Option SubredditData :=
  match fs (companyNewsPath data_dir name) with
  | none => none
  | some lines =>
    let posts := survivingPosts now cutoff min_relevance keywords name lines
    some { name := name
           mentions := posts.length
           popularity_score := (posts.map (·.popularity_score)).sum
           posts := posts }

/-- `StockPopularityAnalyzer.analyze_stock_popularity`: scan every
configured community's collection file, keep records inside the lookback
window whose relevance reaches the threshold, and aggregate counts, total
and average popularity and the top ten records by popularity score.
`now` is `time.time()` and `nowIso` the `datetime.now().isoformat()`
run timestamp. -/
def analyze_stock_popularity (fs : String → Option (List (Option Post)))
    (data_dir : String) (now : ℚ) (nowIso : String) (ticker : String)
    (subreddits : List String) (min_relevance days_back : ℚ) :
    AnalysisResult :=
  let keywords := generate_stock_keywords ticker
  let cutoff := now - days_back * 24 * 3600
  let breakdown := subreddits.filterMap fun name =>
    (processSubreddit fs data_dir now cutoff min_relevance keywords
      name).map fun d => (name, d)
  let all_relevant_posts := (breakdown.map (·.2.posts)).flatten
  let total := (all_relevant_posts.map (·.popularity_score)).sum
  { ticker := ticker
    keywords := keywords
    analysis_period_days := days_back
    total_mentions := all_relevant_posts.length
    total_popularity_score := total
    subreddit_breakdown := breakdown
    top_posts := (pysortDesc (·.popularity_score) all_relevant_posts).take 10
    average_sentiment := 0
    timestamp := nowIso
    average_popularity_score :=
      if 0 < all_relevant_posts.length then
        total / (all_relevant_posts.length : ℚ)
      else 0 }

/-- One row of the leaderboard built by
`generate_stock_popularity_ranking`. -/
structure RankingEntry where
  rank : ℕ
  ticker : String
  company_name : String
  total_mentions : ℕ
  total_popularity_score : ℚ
  average_popularity_score : ℚ
  top_subreddit : String
  trend_description : String
  sample_posts : List PostResult
deriving DecidableEq, Repr

/-- The `summary_stats` dict of a ranking result. -/
structure SummaryStats where
  total_mentions_all_stocks : ℕ
  total_popularity_score_all_stocks : ℚ
  average_mentions_per_stock : ℚ
  most_discussed_stock : String
  hottest_stock : String
deriving DecidableEq, Repr

/-- The result of `generate_stock_popularity_ranking`; `summary_stats` is
`none` when the code returns the empty dict. -/
structure RankingResult where
  generated_at : String
  analysis_period_days : ℚ
  total_stocks_analyzed : ℕ
  stocks_with_mentions : ℕ
  top_stocks : List RankingEntry
  summary_stats : Option SummaryStats
deriving DecidableEq, Repr

/-- `StockPopularityAnalyzer._get_top_subreddit`: the community with the
most mentions (first one on a tie, as Python `max`); `""` on an empty
breakdown. -/
def get_top_subreddit (breakdown : List (String × SubredditData)) :
    String :=
  match breakdown with
  | [] => ""
  | kv :: rest => (pymaxBy (fun x => x.2.mentions) kv rest).1

/-- `StockPopularityAnalyzer._generate_trend_description`: bucket the
mention count into the five fixed labels. -/
def generate_trend_description (analysis : AnalysisResult) : String :=
  let mentions := analysis.total_mentions
  if mentions = 0 then "无讨论"
  else if mentions < 5 then "轻度讨论"
  else if mentions < 20 then "中等讨论"
  else if mentions < 50 then "活跃讨论"
  else "热门讨论"

/-- The `ranking_entry` dict built for one ticker whose analysis found at
least one mention (rank `0` until the post-sort numbering pass). -/
def make_ranking_entry (ticker : String) (a : AnalysisResult) :
    RankingEntry :=
  { rank := 0
    ticker := ticker
    company_name := (slookup ticker_to_company ticker).getD ticker
    total_mentions := a.total_mentions
    total_popularity_score := a.total_popularity_score
    average_popularity_score := a.average_popularity_score
    top_subreddit := get_top_subreddit a.subreddit_breakdown
    trend_description := generate_trend_description a
    sample_posts := a.top_posts.take 3 }

/-- The numbering pass `for i, entry in enumerate(rankings[:top_n]):
entry["rank"] = i + 1`, started at `1`. -/
def assignRanks : ℕ → List RankingEntry → List RankingEntry
  | _, [] => []
  | i, e :: rest => { e with rank := i } :: assignRanks (i + 1) rest

/-- `StockPopularityAnalyzer._generate_summary_stats` over the truncated
top-N rows; the empty input returns the empty dict (`none`). -/
def generate_summary_stats (top_stocks : List RankingEntry) :
    Option SummaryStats :=
  match top_stocks with
  | [] => none
  | s :: rest => some
    { total_mentions_all_stocks :=
        ((s :: rest).map (·.total_mentions)).sum
      total_popularity_score_all_stocks :=
        ((s :: rest).map (·.total_popularity_score)).sum
      average_mentions_per_stock :=
        ((((s :: rest).map (·.total_mentions)).sum : ℕ) : ℚ) /
          ((s :: rest).length : ℚ)
      most_discussed_stock := s.ticker
      hottest_stock :=
        (pymaxBy (fun e => e.average_popularity_score) s rest).ticker }

/-- `StockPopularityAnalyzer.generate_stock_popularity_ranking`: run the
analyzer over the ticker universe (`analyze` abstracts the bound call
`self.analyze_stock_popularity(ticker, ...)` with the other arguments
fixed), keep only tickers with at least one mention, sort descending by
total popularity score, number the first `top_n` rows and summarize them. -/
def generate_stock_popularity_ranking (analyze : String → AnalysisResult)
    (tickers : List String) (top_n : ℕ) (generated_at : String)
    (days_back : ℚ) : RankingResult :=
  let rankings := tickers.filterMap fun t =>
    let a := analyze t
    if 0 < a.total_mentions then some (make_ranking_entry t a) else none
  let sorted := pysortDesc (·.total_popularity_score) rankings
  let top := assignRanks 1 (sorted.take top_n)
  { generated_at := generated_at
    analysis_period_days := days_back
    total_stocks_analyzed := tickers.length
    stocks_with_mentions := rankings.length
    top_stocks := top
    summary_stats := generate_summary_stats top }

/-! Definitions below this point follow the words of the specification /
claims (clearly marked), to be compared with the source-translated
definitions above. -/

/-- Spec-side: one keyword's contribution to the title counter, as the
source computes it — `+1` when the lower-cased keyword occurs as a
substring of the lower-cased title at all, `+2` more when it also has a
whole-word-boundary match. -/
def titleContribution (title : List Char) (kw : String) : ℕ :=
  (if containsSub (lowerStr kw).data title then 1 else 0) +
    (if wordMatch (lowerStr kw).data title then 2 else 0)

/-- Spec-side: one keyword's contribution to the body counter — `+1` for
a substring occurrence, `+1` more for a whole-word-boundary match. -/
def bodyContribution (content : List Char) (kw : String) : ℕ :=
  (if containsSub (lowerStr kw).data content then 1 else 0) +
    (if wordMatch (lowerStr kw).data content then 1 else 0)

/-- Spec-side: the title counter of a record against a keyword list,
presence-based. -/
def titleCounter (post : Post) (keywords : List String) : ℕ :=
  (keywords.map
    (titleContribution (lowerStr (getS post "title")).data)).sum

/-- Spec-side: the body counter of a record against a keyword list,
presence-based. -/
def bodyCounter (post : Post) (keywords : List String) : ℕ :=
  (keywords.map
    (bodyContribution (lowerStr (getS post "selftext")).data)).sum

/-- Spec-side: the number of (possibly overlapping) substring occurrences
of `needle` in `hay` — one per starting position. -/
def countSubOcc (needle hay : List Char) : ℕ :=
  (List.range (hay.length + 1)).countP fun i =>
    needle.isPrefixOf (hay.drop i)

/-- Spec-side: the number of whole-word-boundary matches of `needle` in
`hay` — one per starting position delimited by word boundaries. -/
def countWordOcc (needle hay : List Char) : ℕ :=
  (List.range (hay.length + 1)).countP fun i =>
    needle.isPrefixOf (hay.drop i) && boundaryAt hay i &&
      boundaryAt hay (i + needle.length)

/-- Formalization of claim C2's relevance formula taken literally:
each keyword contributes `1` to the title counter **per** substring
occurrence in the title plus `2` more **per** whole-word-boundary match,
and `1` to the body counter per substring occurrence plus `1` more per
whole-word match; the score is then
`min(title_counter * 0.3, 1.0) + min(body_counter * 0.1, 0.7)` capped at
`1.0`. -/
def relevance_per_occurrence (post : Post) (keywords : List String) : ℚ :=
  let title := (lowerStr (getS post "title")).data
  let content := (lowerStr (getS post "selftext")).data
  let tc := (keywords.map fun kw =>
    countSubOcc (lowerStr kw).data title +
      2 * countWordOcc (lowerStr kw).data title).sum
  let bc := (keywords.map fun kw =>
    countSubOcc (lowerStr kw).data content +
      countWordOcc (lowerStr kw).data content).sum
  min (min ((tc : ℚ) * (3/10)) 1 + min ((bc : ℚ) * (1/10)) (7/10)) 1

/-- Spec-side (claim C8): the alias parts of a ticker — the alias string
from the symbol table split on the literal separator `" OR "`. -/
def aliasParts (ticker : String) : List String :=
  match slookup ticker_to_company ticker with
  | some company_names => splitOn company_names " OR "
  | none => []

/-- Spec-side (claim C8): the claimed keyword set — raw symbol, symbol
uppercased, symbol lowercased, symbol prefixed with `"$"`, together with
the alias parts. -/
def claimedKeywordSet (ticker : String) : Finset String :=
  {ticker, upperStr ticker, lowerStr ticker, "$" ++ ticker} ∪
    (aliasParts ticker).toFinset

/-- The store invariant maintained by loading and merging: the collection
is keyed without duplicates, and every stored record's `id` field equals
the key it is stored under. -/
def StoreInv (c : Collection) : Prop :=
  (c.map Prod.fst).Nodup ∧ ∀ kp ∈ c, dget kp.2 "id" = some kp.1

/-- A whole run of the Store: load a collection file (possibly containing
duplicate-id lines), then apply a sequence of merge calls, each with its
batch of incoming records and its merge timestamp. -/
def mergeSequence (lines : List (Option Post))
    (batches : List (List Post × String)) : Collection :=
  batches.foldl (fun c bt => (mergePosts bt.2 c bt.1).1)
    (loadCollection lines)

/-- A fixed analysis outcome used as a concrete instance in claim C5:
entity A with total popularity 100 and average 50. -/
def exampleAnalysisA : AnalysisResult :=
  { ticker := "A", keywords := [], analysis_period_days := 7,
    total_mentions := 2, total_popularity_score := 100,
    subreddit_breakdown := [], top_posts := [], average_sentiment := 0,
    timestamp := "", average_popularity_score := 50 }

/-- A fixed analysis outcome used as a concrete instance in claim C5:
entity B with total popularity 90 and average 95. -/
def exampleAnalysisB : AnalysisResult :=
  { ticker := "B", keywords := [], analysis_period_days := 7,
    total_mentions := 1, total_popularity_score := 90,
    subreddit_breakdown := [], top_posts := [], average_sentiment := 0,
    timestamp := "", average_popularity_score := 95 }

/-- The two-entity analysis universe of claim C5's concrete instance. -/
def exampleAnalyze : String → AnalysisResult :=
  fun t => if t = "A" then exampleAnalysisA else exampleAnalysisB

/-! ### Lemmas and claim theorems -/

theorem relevanceStep_eq (title content : List Char) (c : ℕ × ℕ)
    (kw : String) :
    relevanceStep title content c kw =
      (c.1 + titleContribution title kw,
       c.2 + bodyContribution content kw) := by
  simp [relevanceStep, titleContribution, bodyContribution, Nat.add_assoc]

theorem foldl_relevanceStep (title content : List Char) :
    ∀ (ks : List String) (a b : ℕ),
      ks.foldl (relevanceStep title content) (a, b) =
        (a + (ks.map (titleContribution title)).sum,
         b + (ks.map (bodyContribution content)).sum) := by
  intro ks
  induction ks with
  | nil => simp
  | cons kw ks ih =>
      intro a b
      simp only [List.foldl_cons, relevanceStep_eq, List.map_cons,
        List.sum_cons, ih, Prod.mk.injEq]
      omega

theorem calculate_post_relevance_eq (post : Post)
    (keywords : List String) :
    calculate_post_relevance post keywords =
      min (min ((titleCounter post keywords : ℚ) * (3/10)) 1 +
        min ((bodyCounter post keywords : ℚ) * (1/10)) (7/10)) 1 := by
  unfold calculate_post_relevance titleCounter bodyCounter
  simp only [foldl_relevanceStep]
  simp

/-- C2 (amended): the relevance score equals
`min(title_counter * 0.3, 1.0) + min(body_counter * 0.1, 0.7)` capped at
`1.0`, where each keyword contributes `1` to the title counter when it
occurs case-insensitively as a substring of the title at all, plus `2`
more when it has a case-insensitive whole-word-boundary match in the
title, and contributes `1` to the body counter for a substring occurrence
plus `1` more for a whole-word-boundary match (presence-based, not
per-occurrence); consequently the relevance score always lies in
`[0, 1]`. -/
theorem relevance_formula_and_bounds (post : Post)
    (keywords : List String) :
    calculate_post_relevance post keywords =
      min (min ((titleCounter post keywords : ℚ) * (3/10)) 1 +
        min ((bodyCounter post keywords : ℚ) * (1/10)) (7/10)) 1 ∧
    0 ≤ calculate_post_relevance post keywords ∧
    calculate_post_relevance post keywords ≤ 1 := by
  have h1 := calculate_post_relevance_eq post keywords
  refine ⟨h1, ?_, ?_⟩
  · rw [h1]
    have ht : (0 : ℚ) ≤ min ((titleCounter post keywords : ℚ) * (3/10)) 1 :=
      le_min (by positivity) (by norm_num)
    have hb : (0 : ℚ) ≤
        min ((bodyCounter post keywords : ℚ) * (1/10)) (7/10) :=
      le_min (by positivity) (by norm_num)
    exact le_min (add_nonneg ht hb) (by norm_num)
  · rw [h1]
    exact min_le_right _ _

/-- C2 (counterexample): for the record with title `"aapl aapl"` and empty
body, and the single keyword `"AAPL"`, the code's relevance score is
`0.9` (the keyword is counted once for substring presence and twice for
word-boundary presence), while the claimed per-occurrence formula yields
`1.0` (two substring occurrences plus two word-boundary matches saturate
the title term); the two disagree. -/
theorem relevance_per_occurrence_counterexample :
    calculate_post_relevance
        [("title", Value.str "aapl aapl"), ("selftext", Value.str "")]
        ["AAPL"] = 9/10 ∧
    relevance_per_occurrence
        [("title", Value.str "aapl aapl"), ("selftext", Value.str "")]
        ["AAPL"] = 1 ∧
    calculate_post_relevance
        [("title", Value.str "aapl aapl"), ("selftext", Value.str "")]
        ["AAPL"] ≠
      relevance_per_occurrence
        [("title", Value.str "aapl aapl"), ("selftext", Value.str "")]
        ["AAPL"] := by
  have htc : titleCounter
      [("title", Value.str "aapl aapl"), ("selftext", Value.str "")]
      ["AAPL"] = 3 := by decide
  have hbc : bodyCounter
      [("title", Value.str "aapl aapl"), ("selftext", Value.str "")]
      ["AAPL"] = 0 := by decide
  have hcode : calculate_post_relevance
      [("title", Value.str "aapl aapl"), ("selftext", Value.str "")]
      ["AAPL"] = 9/10 := by
    rw [calculate_post_relevance_eq, htc, hbc]
    norm_num [min_def]
  have hsub : countSubOcc (lowerStr "AAPL").data
      (lowerStr (getS
        [("title", Value.str "aapl aapl"), ("selftext", Value.str "")]
        "title")).data = 2 := by decide
  have hword : countWordOcc (lowerStr "AAPL").data
      (lowerStr (getS
        [("title", Value.str "aapl aapl"), ("selftext", Value.str "")]
        "title")).data = 2 := by decide
  have hsubB : countSubOcc (lowerStr "AAPL").data
      (lowerStr (getS
        [("title", Value.str "aapl aapl"), ("selftext", Value.str "")]
        "selftext")).data = 0 := by decide
  have hwordB : countWordOcc (lowerStr "AAPL").data
      (lowerStr (getS
        [("title", Value.str "aapl aapl"), ("selftext", Value.str "")]
        "selftext")).data = 0 := by decide
  have hclaim : relevance_per_occurrence
      [("title", Value.str "aapl aapl"), ("selftext", Value.str "")]
      ["AAPL"] = 1 := by
    unfold relevance_per_occurrence
    simp only [List.map_cons, List.map_nil, List.sum_cons, List.sum_nil,
      hsub, hword, hsubB, hwordB]
    norm_num [min_def]
  refine ⟨hcode, hclaim, ?_⟩
  rw [hcode, hclaim]
  norm_num

/-- C3: the popularity score equals
`(engagement + quality) * source_weight * time_decay` with
`engagement = upvotes*1.0 + comment_count*0.8 + score*0.6`,
`quality = upvote_ratio * 0.5` and
`time_decay = max(0.1, 1 / (1 + age_hours/24))`,
`age_hours = (now - created_at)/3600`; `ups`, `num_comments`, `score` and
`created_utc` default to `0` when absent and `upvote_ratio` to `0.5`;
the decay is `1` at age zero, `1/2` at exactly 24 hours, and never
below `0.1`. -/
theorem popularity_score_formula (now : ℚ) (post : Post)
    (source_weight : ℚ) :
    calculate_post_popularity_score now post source_weight =
      (getQ post "ups" 0 * 1 + getQ post "num_comments" 0 * (4/5) +
        getQ post "score" 0 * (3/5) + getQ post "upvote_ratio" (1/2) * (1/2)) *
        source_weight *
        max (1/10)
          (1 / (1 + (now - getQ post "created_utc" 0) / 3600 / 24)) ∧
    (getQ post "created_utc" 0 = now →
      max (1/10 : ℚ)
        (1 / (1 + (now - getQ post "created_utc" 0) / 3600 / 24)) = 1) ∧
    (getQ post "created_utc" 0 = now - 86400 →
      max (1/10 : ℚ)
        (1 / (1 + (now - getQ post "created_utc" 0) / 3600 / 24)) = 1/2) ∧
    (1/10 : ℚ) ≤
      max (1/10) (1 / (1 + (now - getQ post "created_utc" 0) / 3600 / 24)) := by
  refine ⟨?_, ?_, ?_, le_max_left _ _⟩
  · unfold calculate_post_popularity_score
    ring_nf
  · intro h
    rw [h]
    norm_num
  · intro h
    rw [h]
    norm_num

/-- Witness for `popularity_score_formula`: at `now = 0` a record created
at `0` has decay `1`, and at `now = 86400` a record created at `0`
(24 hours earlier) has decay `1/2`. -/
theorem popularity_score_formula_witness :
    max (1/10 : ℚ)
      (1 / (1 + ((0 : ℚ) - getQ [("created_utc", Value.num 0)]
        "created_utc" 0) / 3600 / 24)) = 1 ∧
    max (1/10 : ℚ)
      (1 / (1 + ((86400 : ℚ) - getQ [("created_utc", Value.num 0)]
        "created_utc" 0) / 3600 / 24)) = 1/2 :=
  ⟨(popularity_score_formula 0 [("created_utc", Value.num 0)] 1).2.1
      (by decide),
   (popularity_score_formula 86400 [("created_utc", Value.num 0)] 1).2.2.1
      (by norm_num [getQ, dget])⟩

theorem slookup_forall {α : Type} (P : α → Prop) :
    ∀ l : List (String × α), (∀ p ∈ l, P p.2) →
      ∀ t v, slookup l t = some v → P v := by
  intro l
  induction l with
  | nil => intro _ t v h; simp [slookup] at h
  | cons p rest ih =>
      intro hall t v h
      obtain ⟨k, w⟩ := p
      rw [slookup] at h
      by_cases hk : k = t
      · rw [if_pos hk] at h
        have hv : w = v := by simpa using h
        exact hv ▸ hall (k, w) (List.mem_cons_self _ _)
      · rw [if_neg hk] at h
        exact ih (fun q hq => hall q (List.mem_cons_of_mem _ hq)) t v h

/-- For every alias string actually present in the `ticker_to_company`
table, the code's alias handling (split on `" OR "` and strip each part
when the separator occurs, keep the whole string otherwise) produces
exactly the parts of the string split on `" OR "`. -/
theorem table_alias_parts (t v : String)
    (h : slookup ticker_to_company t = some v) :
    (if containsSub " OR ".data v.data
      then (splitOn v " OR ").map pstrip else [v]) = splitOn v " OR " := by
  refine slookup_forall
    (fun w => (if containsSub " OR ".data w.data
      then (splitOn w " OR ").map pstrip else [w]) = splitOn w " OR ")
    ticker_to_company ?_ t v h
  decide

theorem aliasKeywords_eq_aliasParts (ticker : String) :
    aliasKeywords ticker = aliasParts ticker := by
  unfold aliasKeywords aliasParts
  cases h : slookup ticker_to_company ticker with
  | none => rfl
  | some v => exact table_alias_parts ticker v h

/-- C8 (counterexample): for the lower-case symbol `"aapl"`, the code's
keyword set contains `"$AAPL"` (the symbol uppercased and prefixed with
`"$"`), which the claimed union does not; the two sets differ. -/
theorem keywords_claim_counterexample :
    (generate_stock_keywords "aapl").toFinset ≠ claimedKeywordSet "aapl" := by
  decide

/-- C8 (amended): for every ticker the generated keyword list, as a set,
equals the claimed union of {raw symbol, symbol uppercased, symbol
lowercased, symbol prefixed with "$"} and the alias parts split on
`" OR "`, together with one more element the claim omits: the symbol
uppercased and prefixed with `"$"`. -/
theorem keywords_set_characterization (ticker : String) :
    (generate_stock_keywords ticker).toFinset =
      claimedKeywordSet ticker ∪ {"$" ++ upperStr ticker} := by
  unfold generate_stock_keywords claimedKeywordSet
  rw [aliasKeywords_eq_aliasParts]
  ext a
  simp only [List.mem_toFinset, List.mem_dedup, List.mem_append,
    List.mem_cons, List.not_mem_nil, or_false, Finset.mem_union,
    Finset.mem_insert, Finset.mem_singleton]
  tauto

theorem dget_dictSet_self (p : Post) (f : String) (v : Value) :
    dget (dictSet p f v) f = some v := by
  induction p with
  | nil => simp [dictSet, dget]
  | cons kv rest ih =>
      obtain ⟨k, w⟩ := kv
      by_cases hk : k = f
      · simp [dictSet, hk, dget]
      · simp [dictSet, hk, dget, ih]

theorem dget_dictSet_ne (p : Post) (f g : String) (v : Value)
    (h : f ≠ g) : dget (dictSet p f v) g = dget p g := by
  induction p with
  | nil => simp [dictSet, dget, h]
  | cons kv rest ih =>
      obtain ⟨k, w⟩ := kv
      by_cases hk : k = f
      · subst hk
        simp [dictSet, dget, h]
      · simp only [dictSet, if_neg hk]
        by_cases hg : k = g
        · simp [dget, hg]
        · simp [dget, hg, ih]

theorem dget_eq_none_of_not_mem_keys (p : Post) (f : String)
    (h : f ∉ p.map Prod.fst) : dget p f = none := by
  induction p with
  | nil => rfl
  | cons kv rest ih =>
      obtain ⟨k, w⟩ := kv
      simp only [List.map_cons, List.mem_cons] at h
      push_neg at h
      simp [dget, Ne.symm h.1, ih h.2]

theorem dget_dictUpdate_none (base overlay : Post) (f : String)
    (h : dget overlay f = none) :
    dget (dictUpdate base overlay) f = dget base f := by
  induction overlay generalizing base with
  | nil => rfl
  | cons kv rest ih =>
      obtain ⟨k, w⟩ := kv
      rw [dget] at h
      by_cases hk : k = f
      · simp [hk] at h
      · rw [if_neg hk] at h
        show dget (dictUpdate (dictSet base k w) rest) f = dget base f
        rw [ih (dictSet base k w) h, dget_dictSet_ne base k f w hk]

theorem dget_dictUpdate_some (base overlay : Post) (f : String)
    (v : Value) (hnd : (overlay.map Prod.fst).Nodup)
    (h : dget overlay f = some v) :
    dget (dictUpdate base overlay) f = some v := by
  induction overlay generalizing base with
  | nil => simp [dget] at h
  | cons kv rest ih =>
      obtain ⟨k, w⟩ := kv
      simp only [List.map_cons, List.nodup_cons] at hnd
      rw [dget] at h
      by_cases hk : k = f
      · rw [if_pos hk] at h
        obtain rfl : w = v := by simpa using h
        have hrest : dget rest f = none :=
          dget_eq_none_of_not_mem_keys rest f (hk ▸ hnd.1)
        show dget (dictUpdate (dictSet base k w) rest) f = some w
        rw [dget_dictUpdate_none _ _ _ hrest, hk, dget_dictSet_self]
      · rw [if_neg hk] at h
        exact ih (dictSet base k w) hnd.2 h

theorem hasChanges_dictSet_nonvolatile (p : Post) (f : String)
    (v : Value) (hf : f ∉ key_fields) :
    hasChanges p (dictSet p f v) = false := by
  rw [hasChanges, List.any_eq_false]
  intro g hg
  have hfg : f ≠ g := fun he => hf (he ▸ hg)
  rw [dget_dictSet_ne p f g v hfg]
  simp

theorem alookup_assocSet_self (c : Collection) (k : Value) (p : Post) :
    alookup (assocSet c k p) k = some p := by
  induction c with
  | nil => simp [assocSet, alookup]
  | cons kv rest ih =>
      obtain ⟨k', p'⟩ := kv
      by_cases hk : k' = k
      · simp [assocSet, hk, alookup]
      · simp [assocSet, hk, alookup, ih]

theorem alookup_assocSet_ne (c : Collection) (k q : Value) (p : Post)
    (h : k ≠ q) : alookup (assocSet c k p) q = alookup c q := by
  induction c with
  | nil => simp [assocSet, alookup, h]
  | cons kv rest ih =>
      obtain ⟨k', p'⟩ := kv
      by_cases hk : k' = k
      · subst hk
        simp [assocSet, alookup, h]
      · simp only [assocSet, if_neg hk]
        by_cases hq : k' = q
        · simp [alookup, hq]
        · simp [alookup, hq, ih]

theorem alookup_eq_none_iff (c : Collection) (k : Value) :
    alookup c k = none ↔ k ∉ c.map Prod.fst := by
  induction c with
  | nil => simp [alookup]
  | cons kv rest ih =>
      obtain ⟨k', p'⟩ := kv
      by_cases hk : k' = k
      · simp [alookup, hk]
      · simp [alookup, hk, ih, Ne.symm hk]

theorem assocSet_eq_append (c : Collection) (k : Value) (p : Post)
    (h : alookup c k = none) : assocSet c k p = c ++ [(k, p)] := by
  induction c with
  | nil => rfl
  | cons kv rest ih =>
      obtain ⟨k', p'⟩ := kv
      rw [alookup] at h
      by_cases hk : k' = k
      · simp [hk] at h
      · rw [if_neg hk] at h
        simp [assocSet, hk, ih h]

theorem alookup_append (c1 c2 : Collection) (k : Value) :
    alookup (c1 ++ c2) k =
      match alookup c1 k with
      | some p => some p
      | none => alookup c2 k := by
  induction c1 with
  | nil => simp [alookup]
  | cons kv rest ih =>
      obtain ⟨k', p'⟩ := kv
      by_cases hk : k' = k
      · simp [alookup, hk]
      · simp [alookup, hk, ih]

theorem mergePosts_insert_all (t : String) :
    ∀ (posts : List Post) (c : Collection) (s : MergeStats),
      (∀ p ∈ posts, ∃ k, dget p "id" = some k ∧ alookup c k = none) →
      (posts.map fun p => dget p "id").Nodup →
      posts.foldl (mergeOne t) (c, s) =
        (c ++ posts.map (fun p => ((dget p "id").getD Value.null,
          dictSet p "first_saved" (Value.str t))),
         ⟨s.new + posts.length, s.updated, s.skipped⟩) := by
  intro posts
  induction posts with
  | nil =>
      intro c s _ _
      simp
  | cons p rest ih =>
      intro c s hall hnd
      obtain ⟨k, hk, hlook⟩ := hall p (List.mem_cons_self _ _)
      simp only [List.map_cons, List.nodup_cons] at hnd
      rw [List.foldl_cons]
      have hstep : mergeOne t (c, s) p =
          (c ++ [(k, dictSet p "first_saved" (Value.str t))],
           { s with new := s.new + 1 }) := by
        rw [mergeOne]
        simp only [hk, hlook]
        rw [assocSet_eq_append c k _ hlook]
      rw [hstep]
      rw [ih (c ++ [(k, dictSet p "first_saved" (Value.str t))])
        { s with new := s.new + 1 } ?_ hnd.2]
      · have hkey : (dget p "id").getD Value.null = k := by rw [hk]; rfl
        simp only [hkey, List.map_cons, List.append_assoc,
          List.singleton_append, List.length_cons]
        have harith : s.new + 1 + rest.length =
            s.new + (rest.length + 1) := by omega
        rw [harith]
      · intro q hq
        obtain ⟨k', hk', hlook'⟩ := hall q (List.mem_cons_of_mem _ hq)
        refine ⟨k', hk', ?_⟩
        rw [alookup_append, hlook']
        have : k ≠ k' := by
          intro he
          subst he
          exact hnd.1 (by
            have : dget q "id" = dget p "id" := by rw [hk, hk']
            exact this ▸ List.mem_map_of_mem (fun r => dget r "id") hq)
        simp [alookup, this]

theorem mergePosts_skip_all (t : String) :
    ∀ (posts : List Post) (c : Collection) (s : MergeStats),
      (∀ p ∈ posts, ∃ k, dget p "id" = some k ∧
        ∃ e, alookup c k = some e ∧ hasChanges p e = false) →
      posts.foldl (mergeOne t) (c, s) =
        (c, ⟨s.new, s.updated, s.skipped + posts.length⟩) := by
  intro posts
  induction posts with
  | nil =>
      intro c s _
      simp
  | cons p rest ih =>
      intro c s hall
      obtain ⟨k, hk, e, hlook, hch⟩ := hall p (List.mem_cons_self _ _)
      rw [List.foldl_cons]
      have hstep : mergeOne t (c, s) p =
          (c, { s with skipped := s.skipped + 1 }) := by
        rw [mergeOne]
        simp only [hk, hlook, hch]
        simp
      rw [hstep, ih c { s with skipped := s.skipped + 1 }
        (fun q hq => hall q (List.mem_cons_of_mem _ hq))]
      simp only [List.length_cons]
      have harith : s.skipped + 1 + rest.length =
          s.skipped + (rest.length + 1) := by omega
      rw [harith]

theorem alookup_stamped (t : String) :
    ∀ (posts : List Post),
      (∀ p ∈ posts, (dget p "id").isSome) →
      (posts.map fun p => dget p "id").Nodup →
      ∀ p ∈ posts, ∀ k, dget p "id" = some k →
        alookup (posts.map fun q => ((dget q "id").getD Value.null,
          dictSet q "first_saved" (Value.str t))) k =
          some (dictSet p "first_saved" (Value.str t)) := by
  intro posts
  induction posts with
  | nil => intro _ _ p hp; simp at hp
  | cons q rest ih =>
      intro hsome hnd p hp k hk
      simp only [List.map_cons, List.nodup_cons] at hnd
      rcases List.mem_cons.mp hp with he | hm
      · subst he
        have hkey : (dget p "id").getD Value.null = k := by rw [hk]; rfl
        simp [alookup, hkey]
      · have hq : (dget q "id").isSome :=
          hsome q (List.mem_cons_self _ _)
        obtain ⟨kq, hkq⟩ := Option.isSome_iff_exists.mp hq
        have hne : kq ≠ k := by
          intro he
          subst he
          have : dget p "id" = dget q "id" := by rw [hk, hkq]
          exact hnd.1 (this ▸ List.mem_map_of_mem (fun r => dget r "id") hm)
        have hkey : (dget q "id").getD Value.null = kq := by rw [hkq]; rfl
        simp only [List.map_cons, alookup, hkey]
        rw [if_neg hne]
        exact ih (fun r hr => hsome r (List.mem_cons_of_mem _ hr)) hnd.2
          p hm k hk

/-- C1: merging a batch of records that all carry pairwise-distinct ids
into the empty collection reports all of them as new inserts; merging the
identical batch again leaves the stored collection unchanged, reports
0 new inserts, 0 updates and N skips, and the collection holds exactly
N records, each reachable under its record's id. -/
theorem merge_idempotent (posts : List Post) (t1 t2 : String)
    (h1 : ∀ p ∈ posts, (dget p "id").isSome)
    (h2 : (posts.map fun p => dget p "id").Nodup) :
    (mergePosts t1 [] posts).2 = ⟨posts.length, 0, 0⟩ ∧
    (mergePosts t2 (mergePosts t1 [] posts).1 posts).1 =
      (mergePosts t1 [] posts).1 ∧
    (mergePosts t2 (mergePosts t1 [] posts).1 posts).2 =
      ⟨0, 0, posts.length⟩ ∧
    (mergePosts t1 [] posts).1.length = posts.length ∧
    (∀ p ∈ posts, ∀ k, dget p "id" = some k →
      alookup (mergePosts t1 [] posts).1 k =
        some (dictSet p "first_saved" (Value.str t1))) := by
  have hfresh : ∀ p ∈ posts, ∃ k, dget p "id" = some k ∧
      alookup ([] : Collection) k = none := by
    intro p hp
    obtain ⟨k, hk⟩ := Option.isSome_iff_exists.mp (h1 p hp)
    exact ⟨k, hk, rfl⟩
  have e1 : mergePosts t1 [] posts =
      (posts.map (fun p => ((dget p "id").getD Value.null,
        dictSet p "first_saved" (Value.str t1))),
       ⟨posts.length, 0, 0⟩) := by
    rw [mergePosts, mergePosts_insert_all t1 posts [] ⟨0, 0, 0⟩ hfresh h2]
    simp
  have hlook : ∀ p ∈ posts, ∀ k, dget p "id" = some k →
      alookup (mergePosts t1 [] posts).1 k =
        some (dictSet p "first_saved" (Value.str t1)) := by
    intro p hp k hk
    rw [e1]
    exact alookup_stamped t1 posts h1 h2 p hp k hk
  have hskip : ∀ p ∈ posts, ∃ k, dget p "id" = some k ∧
      ∃ e, alookup (mergePosts t1 [] posts).1 k = some e ∧
        hasChanges p e = false := by
    intro p hp
    obtain ⟨k, hk⟩ := Option.isSome_iff_exists.mp (h1 p hp)
    refine ⟨k, hk, dictSet p "first_saved" (Value.str t1),
      hlook p hp k hk, ?_⟩
    exact hasChanges_dictSet_nonvolatile p "first_saved" (Value.str t1)
      (by decide)
  have e2 : mergePosts t2 (mergePosts t1 [] posts).1 posts =
      ((mergePosts t1 [] posts).1, ⟨0, 0, posts.length⟩) := by
    rw [mergePosts, mergePosts_skip_all t2 posts (mergePosts t1 [] posts).1
      ⟨0, 0, 0⟩ hskip]
    simp
  refine ⟨by rw [e1], by rw [e2], by rw [e2], ?_, hlook⟩
  rw [e1]
  simp

/-- Witness for `merge_idempotent`: a concrete two-record batch merged
twice into an empty collection reports `{new 0, updated 0, skipped 2}` on
the second merge and leaves the collection of size 2 unchanged. -/
theorem merge_idempotent_witness :
    (mergePosts "2024-02-02T00:00:00"
      (mergePosts "2024-01-01T00:00:00" []
        [[("id", Value.str "p1"), ("score", Value.num 5)],
         [("id", Value.str "p2"), ("score", Value.num 7)]]).1
      [[("id", Value.str "p1"), ("score", Value.num 5)],
       [("id", Value.str "p2"), ("score", Value.num 7)]]).2 =
      ⟨0, 0, 2⟩ ∧
    (mergePosts "2024-01-01T00:00:00" []
      [[("id", Value.str "p1"), ("score", Value.num 5)],
       [("id", Value.str "p2"), ("score", Value.num 7)]]).1.length = 2 :=
  ⟨((merge_idempotent
      [[("id", Value.str "p1"), ("score", Value.num 5)],
       [("id", Value.str "p2"), ("score", Value.num 7)]]
      "2024-01-01T00:00:00" "2024-02-02T00:00:00"
      (by decide) (by decide)).2.2.1),
   ((merge_idempotent
      [[("id", Value.str "p1"), ("score", Value.num 5)],
       [("id", Value.str "p2"), ("score", Value.num 7)]]
      "2024-01-01T00:00:00" "2024-02-02T00:00:00"
      (by decide) (by decide)).2.2.2.1)⟩

/-- C6: merging an incoming record whose id is already stored but whose
`score` differs stores the overlay of the incoming fields on the stored
record, replacing the stored `score` with the incoming one, stamping
`last_updated` to the merge time, preserving `first_saved` exactly as the
stored record had it (the incoming record carries neither bookkeeping
field), and reports the call as exactly one update. -/
theorem merge_update_detection (coll : Collection)
    (incoming stored : Post) (k v : Value) (t : String)
    (hid : dget incoming "id" = some k)
    (hlook : alookup coll k = some stored)
    (hscore : dget incoming "score" = some v)
    (hdiff : some v ≠ dget stored "score")
    (hfs : dget incoming "first_saved" = none)
    (_hlu : dget incoming "last_updated" = none)
    (hnd : (incoming.map Prod.fst).Nodup) :
    (mergePosts t coll [incoming]).2 = ⟨0, 1, 0⟩ ∧
    ∃ u, alookup (mergePosts t coll [incoming]).1 k = some u ∧
      dget u "score" = some v ∧
      dget u "last_updated" = some (Value.str t) ∧
      dget u "first_saved" = dget stored "first_saved" := by
  have hch : hasChanges incoming stored = true := by
    rw [hasChanges, List.any_eq_true]
    refine ⟨"score", by decide, ?_⟩
    rw [hscore]
    simpa using hdiff
  have hstep : mergePosts t coll [incoming] =
      (assocSet coll k (dictSet (dictUpdate stored incoming)
        "last_updated" (Value.str t)), ⟨0, 1, 0⟩) := by
    rw [mergePosts, List.foldl_cons, List.foldl_nil, mergeOne]
    simp only [hid, hlook, hch]
    rfl
  rw [hstep]
  refine ⟨rfl, dictSet (dictUpdate stored incoming) "last_updated"
    (Value.str t), alookup_assocSet_self _ _ _, ?_, ?_, ?_⟩
  · rw [dget_dictSet_ne _ _ _ _ (by decide)]
    exact dget_dictUpdate_some stored incoming "score" v hnd hscore
  · exact dget_dictSet_self _ _ _
  · rw [dget_dictSet_ne _ _ _ _ (by decide)]
    exact dget_dictUpdate_none stored incoming "first_saved" hfs

/-- Witness for `merge_update_detection`: one stored record `p1` with
score 5, an incoming `p1` with score 9 — the merge reports one update and
the stored record now carries score 9, the fresh `last_updated` stamp and
the original `first_saved`. -/
theorem merge_update_detection_witness :
    (mergePosts "2024-02-02T00:00:00"
      [(Value.str "p1",
        [("id", Value.str "p1"), ("score", Value.num 5),
         ("first_saved", Value.str "2024-01-01T00:00:00")])]
      [[("id", Value.str "p1"), ("score", Value.num 9)]]).2 = ⟨0, 1, 0⟩ ∧
    ∃ u, alookup (mergePosts "2024-02-02T00:00:00"
        [(Value.str "p1",
          [("id", Value.str "p1"), ("score", Value.num 5),
           ("first_saved", Value.str "2024-01-01T00:00:00")])]
        [[("id", Value.str "p1"), ("score", Value.num 9)]]).1
        (Value.str "p1") = some u ∧
      dget u "score" = some (Value.num 9) ∧
      dget u "last_updated" = some (Value.str "2024-02-02T00:00:00") ∧
      dget u "first_saved" =
        dget [("id", Value.str "p1"), ("score", Value.num 5),
          ("first_saved", Value.str "2024-01-01T00:00:00")]
          "first_saved" :=
  merge_update_detection
    [(Value.str "p1",
      [("id", Value.str "p1"), ("score", Value.num 5),
       ("first_saved", Value.str "2024-01-01T00:00:00")])]
    [("id", Value.str "p1"), ("score", Value.num 9)]
    [("id", Value.str "p1"), ("score", Value.num 5),
     ("first_saved", Value.str "2024-01-01T00:00:00")]
    (Value.str "p1") (Value.num 9) "2024-02-02T00:00:00"
    (by decide) (by decide) (by decide) (by decide) (by decide)
    (by decide) (by decide)

theorem mem_assocSet (c : Collection) (k : Value) (p : Post) :
    ∀ kq ∈ assocSet c k p, kq = (k, p) ∨ kq ∈ c := by
  induction c with
  | nil =>
      intro kq hkq
      simp only [assocSet] at hkq
      exact Or.inl (by simpa using hkq)
  | cons kv rest ih =>
      obtain ⟨k', p'⟩ := kv
      intro kq hkq
      by_cases hk : k' = k
      · rw [assocSet, if_pos hk] at hkq
        rcases List.mem_cons.mp hkq with he | hm
        · exact Or.inl he
        · exact Or.inr (List.mem_cons_of_mem _ hm)
      · rw [assocSet, if_neg hk] at hkq
        rcases List.mem_cons.mp hkq with he | hm
        · exact Or.inr (he ▸ List.mem_cons_self _ _)
        · rcases ih kq hm with he | hm'
          · exact Or.inl he
          · exact Or.inr (List.mem_cons_of_mem _ hm')

theorem assocSet_keys (c : Collection) (k : Value) (p : Post) :
    (assocSet c k p).map Prod.fst =
      if k ∈ c.map Prod.fst then c.map Prod.fst
      else c.map Prod.fst ++ [k] := by
  induction c with
  | nil => simp [assocSet]
  | cons kv rest ih =>
      obtain ⟨k', p'⟩ := kv
      by_cases hk : k' = k
      · subst hk
        simp [assocSet]
      · rw [assocSet, if_neg hk]
        simp only [List.map_cons, List.mem_cons, Ne.symm hk, false_or, ih]
        by_cases hm : k ∈ rest.map Prod.fst
        · simp [hm]
        · simp [hm]

theorem StoreInv_assocSet (c : Collection) (k : Value) (p : Post)
    (hInv : StoreInv c) (hp : dget p "id" = some k) :
    StoreInv (assocSet c k p) := by
  constructor
  · rw [assocSet_keys]
    by_cases hm : k ∈ c.map Prod.fst
    · rw [if_pos hm]
      exact hInv.1
    · rw [if_neg hm]
      simp [List.nodup_append, hInv.1, hm]
  · intro kq hkq
    rcases mem_assocSet c k p kq hkq with he | hm
    · rw [he]
      exact hp
    · exact hInv.2 kq hm

theorem StoreInv_mergeOne (t : String) (st : Collection × MergeStats)
    (post : Post) (hInv : StoreInv st.1)
    (hnd : (post.map Prod.fst).Nodup) :
    StoreInv (mergeOne t st post).1 := by
  cases hid : dget post "id" with
  | none =>
      simp only [mergeOne, hid]
      exact hInv
  | some k =>
      cases hl : alookup st.1 k with
      | none =>
          simp only [mergeOne, hid, hl]
          refine StoreInv_assocSet st.1 k _ hInv ?_
          rw [dget_dictSet_ne _ _ _ _ (by decide)]
          exact hid
      | some e =>
          cases hch : hasChanges post e with
          | false =>
              simp only [mergeOne, hid, hl, hch]
              exact hInv
          | true =>
              simp only [mergeOne, hid, hl, hch]
              refine StoreInv_assocSet st.1 k _ hInv ?_
              rw [dget_dictSet_ne _ _ _ _ (by decide)]
              exact dget_dictUpdate_some e post "id" k hnd hid

theorem StoreInv_mergePosts (t : String) :
    ∀ (posts : List Post) (st : Collection × MergeStats),
      StoreInv st.1 → (∀ p ∈ posts, (p.map Prod.fst).Nodup) →
      StoreInv (posts.foldl (mergeOne t) st).1 := by
  intro posts
  induction posts with
  | nil => intro st h _; exact h
  | cons p rest ih =>
      intro st h hall
      rw [List.foldl_cons]
      exact ih (mergeOne t st p)
        (StoreInv_mergeOne t st p h (hall p (List.mem_cons_self _ _)))
        (fun q hq => hall q (List.mem_cons_of_mem _ hq))

theorem StoreInv_loadCollection_aux :
    ∀ (lines : List (Option Post)) (c : Collection), StoreInv c →
      StoreInv (lines.foldl
        (fun c l =>
          match l with
          | none => c
          | some post =>
            match dget post "id" with
            | none => c
            | some k => assocSet c k post) c) := by
  intro lines
  induction lines with
  | nil => intro c h; exact h
  | cons l rest ih =>
      intro c h
      rw [List.foldl_cons]
      refine ih _ ?_
      cases l with
      | none => exact h
      | some post =>
          cases hid : dget post "id" with
          | none => simpa only [hid] using h
          | some k =>
              simp only [hid]
              exact StoreInv_assocSet c k post h hid

theorem StoreInv_loadCollection (lines : List (Option Post)) :
    StoreInv (loadCollection lines) :=
  StoreInv_loadCollection_aux lines [] ⟨List.nodup_nil, by simp⟩

theorem StoreInv_mergeSequence (lines : List (Option Post)) :
    ∀ (batches : List (List Post × String)),
      (∀ bt ∈ batches, ∀ p ∈ bt.1, (p.map Prod.fst).Nodup) →
      StoreInv (mergeSequence lines batches) := by
  have haux : ∀ (batches : List (List Post × String)) (c : Collection),
      StoreInv c →
      (∀ bt ∈ batches, ∀ p ∈ bt.1, (p.map Prod.fst).Nodup) →
      StoreInv (batches.foldl (fun c bt => (mergePosts bt.2 c bt.1).1) c) := by
    intro batches
    induction batches with
    | nil => intro c h _; exact h
    | cons bt rest ih =>
        intro c h hall
        rw [List.foldl_cons]
        refine ih _ ?_ (fun b hb => hall b (List.mem_cons_of_mem _ hb))
        exact StoreInv_mergePosts bt.2 bt.1 (c, ⟨0, 0, 0⟩) h
          (hall bt (List.mem_cons_self _ _))
  intro batches hall
  exact haux batches (loadCollection lines)
    (StoreInv_loadCollection lines) hall

/-- C7: after loading any collection file (even one with duplicate-id
lines) and applying any sequence of merge calls whose incoming records are
well-formed dicts, the persisted collection holds at most one record per
id: its keys are pairwise distinct, every stored record's `id` field is
its key, and the stored records have pairwise distinct `id` fields. -/
theorem store_id_unique (lines : List (Option Post))
    (batches : List (List Post × String))
    (hwb : ∀ bt ∈ batches, ∀ p ∈ bt.1, (p.map Prod.fst).Nodup) :
    ((mergeSequence lines batches).map Prod.fst).Nodup ∧
    (∀ kp ∈ mergeSequence lines batches, dget kp.2 "id" = some kp.1) ∧
    List.Pairwise (fun p q => dget p "id" ≠ dget q "id")
      ((mergeSequence lines batches).map Prod.snd) := by
  have hInv := StoreInv_mergeSequence lines batches hwb
  refine ⟨hInv.1, hInv.2, ?_⟩
  rw [List.pairwise_map]
  have hkeys : List.Pairwise (fun kp kq : Value × Post => kp.1 ≠ kq.1)
      (mergeSequence lines batches) := List.pairwise_map.mp hInv.1
  refine List.Pairwise.imp_of_mem ?_ hkeys
  intro kp kq hkp hkq hne
  rw [hInv.2 kp hkp, hInv.2 kq hkq]
  simpa using hne

/-- Witness for `store_id_unique`: a file with two lines carrying the same
id `p1` plus one later merge still yields a collection with pairwise
distinct keys. -/
theorem store_id_unique_witness :
    ((mergeSequence
      [some [("id", Value.str "p1"), ("score", Value.num 1)],
       some [("id", Value.str "p1"), ("score", Value.num 2)],
       some [("id", Value.str "p2")]]
      [([[("id", Value.str "p1"), ("score", Value.num 3)]],
        "2024-01-01T00:00:00")]).map Prod.fst).Nodup :=
  (store_id_unique
    [some [("id", Value.str "p1"), ("score", Value.num 1)],
     some [("id", Value.str "p1"), ("score", Value.num 2)],
     some [("id", Value.str "p2")]]
    [([[("id", Value.str "p1"), ("score", Value.num 3)]],
      "2024-01-01T00:00:00")]
    (by decide)).1

theorem mem_assignRanks :
    ∀ (i : ℕ) (l : List RankingEntry) (e : RankingEntry),
      e ∈ assignRanks i l →
        ∃ e' ∈ l, e.ticker = e'.ticker ∧
          e.total_mentions = e'.total_mentions ∧
          e.total_popularity_score = e'.total_popularity_score ∧
          e.average_popularity_score = e'.average_popularity_score := by
  intro i l
  induction l generalizing i with
  | nil => intro e he; simp [assignRanks] at he
  | cons x rest ih =>
      intro e he
      rw [assignRanks] at he
      rcases List.mem_cons.mp he with he | hm
      · subst he
        exact ⟨x, List.mem_cons_self _ _, rfl, rfl, rfl, rfl⟩
      · obtain ⟨e', hm', hprops⟩ := ih (i + 1) e hm
        exact ⟨e', List.mem_cons_of_mem _ hm', hprops⟩

theorem assignRanks_map_total :
    ∀ (i : ℕ) (l : List RankingEntry),
      (assignRanks i l).map (fun e => e.total_popularity_score) =
        l.map (fun e => e.total_popularity_score) := by
  intro i l
  induction l generalizing i with
  | nil => rfl
  | cons x rest ih =>
      rw [assignRanks, List.map_cons, List.map_cons, ih (i + 1)]

/-- C4: a ticker whose analysis reports zero mentions never contributes an
entry to the ranking: every row of `top_stocks` has a positive mention
count, and `stocks_with_mentions` counts exactly the tickers whose
analysis found at least one mention. -/
theorem ranking_excludes_zero_mentions (analyze : String → AnalysisResult)
    (tickers : List String) (top_n : ℕ) (generated_at : String)
    (days_back : ℚ) :
    (∀ e ∈ (generate_stock_popularity_ranking analyze tickers top_n
        generated_at days_back).top_stocks, 0 < e.total_mentions) ∧
    (generate_stock_popularity_ranking analyze tickers top_n generated_at
        days_back).stocks_with_mentions =
      tickers.countP (fun t => 0 < (analyze t).total_mentions) := by
  simp only [generate_stock_popularity_ranking]
  constructor
  · intro e he
    obtain ⟨e', he', _, hm, _, _⟩ := mem_assignRanks 1 _ e he
    have h1 : e' ∈ pysortDesc (fun x => x.total_popularity_score)
        (tickers.filterMap fun t =>
          if 0 < (analyze t).total_mentions then
            some (make_ranking_entry t (analyze t)) else none) :=
      List.take_subset _ _ he'
    have h2 : e' ∈ tickers.filterMap fun t =>
        if 0 < (analyze t).total_mentions then
          some (make_ranking_entry t (analyze t)) else none :=
      ((List.perm_insertionSort _ _).mem_iff).mp h1
    rw [List.mem_filterMap] at h2
    obtain ⟨t, _, hft⟩ := h2
    by_cases hc : 0 < (analyze t).total_mentions
    · rw [if_pos hc] at hft
      have he'' : e' = make_ranking_entry t (analyze t) :=
        (Option.some_inj.mp hft).symm
      rw [hm, he'']
      exact hc
    · rw [if_neg hc] at hft
      exact absurd hft (by simp)
  · rw [List.length_filterMap_eq_countP]
    refine List.countP_congr ?_
    intro t _
    by_cases hc : 0 < (analyze t).total_mentions
    · simp [hc]
    · simp [hc]

theorem pymaxBy_mem {α β : Type} [LinearOrder β] (key : α → β) :
    ∀ (xs : List α) (x : α), pymaxBy key x xs ∈ x :: xs := by
  intro xs
  induction xs with
  | nil => intro x; simp [pymaxBy]
  | cons z rest ih =>
      intro x
      rw [pymaxBy, List.foldl_cons]
      have h := ih (if key x < key z then z else x)
      rw [pymaxBy] at h
      rcases List.mem_cons.mp h with he | hm
      · rw [he]
        by_cases hc : key x < key z
        · rw [if_pos hc]
          exact List.mem_cons_of_mem _ (List.mem_cons_self _ _)
        · rw [if_neg hc]
          exact List.mem_cons_self _ _
      · exact List.mem_cons_of_mem _ (List.mem_cons_of_mem _ hm)

theorem le_pymaxBy {α β : Type} [LinearOrder β] (key : α → β) :
    ∀ (xs : List α) (x : α), ∀ y ∈ x :: xs,
      key y ≤ key (pymaxBy key x xs) := by
  intro xs
  induction xs with
  | nil =>
      intro x y hy
      rcases List.mem_cons.mp hy with he | hm
      · rw [he]
        exact le_refl _
      · simp at hm
  | cons z rest ih =>
      intro x y hy
      rw [pymaxBy, List.foldl_cons]
      have hstep : ∀ w ∈ (if key x < key z then z else x) :: rest,
          key w ≤ key (pymaxBy key (if key x < key z then z else x) rest) :=
        ih (if key x < key z then z else x)
      have hhead := hstep _ (List.mem_cons_self _ _)
      rcases List.mem_cons.mp hy with he | hy'
      · subst he
        refine le_trans ?_ hhead
        by_cases hc : key y < key z
        · rw [if_pos hc]
          exact le_of_lt hc
        · rw [if_neg hc]
      · rcases List.mem_cons.mp hy' with he | hm
        · subst he
          refine le_trans ?_ hhead
          by_cases hc : key x < key y
          · rw [if_pos hc]
          · rw [if_neg hc]
            exact le_of_not_lt hc
        · exact hstep y (List.mem_cons_of_mem _ hm)

theorem summary_hottest (top_stocks : List RankingEntry)
    (ss : SummaryStats) (h : generate_summary_stats top_stocks = some ss) :
    ∃ e ∈ top_stocks, ss.hottest_stock = e.ticker ∧
      ∀ e' ∈ top_stocks, e'.average_popularity_score ≤
        e.average_popularity_score := by
  cases top_stocks with
  | nil => simp [generate_summary_stats] at h
  | cons s rest =>
      have hss : ss.hottest_stock =
          (pymaxBy (fun e => e.average_popularity_score) s rest).ticker := by
        rw [generate_summary_stats] at h
        obtain rfl := Option.some_inj.mp h.symm
        rfl
      refine ⟨pymaxBy (fun e => e.average_popularity_score) s rest,
        pymaxBy_mem _ rest s, hss, ?_⟩
      exact le_pymaxBy (fun e => e.average_popularity_score) rest s

/-- C5: the ranking's rows are sorted in descending order of total
popularity score, `summary_stats.hottest_stock` is the row with the
maximum average popularity score among the truncated top-N rows, and for
the concrete two-entity universe A (total 100, average 50), B (total 90,
average 95) the top-1 row is A while the hottest stock is B. -/
theorem ranking_sorted_and_hottest (analyze : String → AnalysisResult)
    (tickers : List String) (top_n : ℕ) (generated_at : String)
    (days_back : ℚ) :
    ((generate_stock_popularity_ranking analyze tickers top_n generated_at
        days_back).top_stocks.map
      (fun e => e.total_popularity_score)).Pairwise (fun a b => b ≤ a) ∧
    (∀ ss, (generate_stock_popularity_ranking analyze tickers top_n
        generated_at days_back).summary_stats = some ss →
      ∃ e ∈ (generate_stock_popularity_ranking analyze tickers top_n
          generated_at days_back).top_stocks,
        ss.hottest_stock = e.ticker ∧
        ∀ e' ∈ (generate_stock_popularity_ranking analyze tickers top_n
            generated_at days_back).top_stocks,
          e'.average_popularity_score ≤ e.average_popularity_score) ∧
    ((generate_stock_popularity_ranking exampleAnalyze ["A", "B"] 20 ""
        7).top_stocks.head?.map (fun e => e.ticker) = some "A" ∧
      (generate_stock_popularity_ranking exampleAnalyze ["A", "B"] 20 ""
        7).summary_stats.map (fun ss => ss.hottest_stock) = some "B") := by
  refine ⟨?_, ?_, by decide, by decide⟩
  · simp only [generate_stock_popularity_ranking]
    rw [assignRanks_map_total, List.pairwise_map]
    have hsorted : List.Pairwise
        (fun a b : RankingEntry =>
          b.total_popularity_score ≤ a.total_popularity_score)
        (pysortDesc (fun e => e.total_popularity_score)
          (tickers.filterMap fun t =>
            if 0 < (analyze t).total_mentions then
              some (make_ranking_entry t (analyze t)) else none)) := by
      haveI : IsTotal RankingEntry
          (fun a b : RankingEntry =>
            b.total_popularity_score ≤ a.total_popularity_score) :=
        ⟨fun a b => le_total _ _⟩
      haveI : IsTrans RankingEntry
          (fun a b : RankingEntry =>
            b.total_popularity_score ≤ a.total_popularity_score) :=
        ⟨fun _ _ _ h1 h2 => le_trans h2 h1⟩
      exact List.sorted_insertionSort _ _
    exact hsorted.sublist (List.take_sublist _ _)
  · intro ss h
    exact summary_hottest _ ss h

/-- Witness for `ranking_sorted_and_hottest`: in the concrete two-entity
universe, the hottest stock `"B"` is a ranking row with the maximal
average popularity score. -/
theorem ranking_sorted_and_hottest_witness :
    ∃ e ∈ (generate_stock_popularity_ranking exampleAnalyze ["A", "B"] 20
        "" 7).top_stocks,
      ({ total_mentions_all_stocks := 3,
         total_popularity_score_all_stocks := 190,
         average_mentions_per_stock := 3/2,
         most_discussed_stock := "A",
         hottest_stock := "B" } : SummaryStats).hottest_stock = e.ticker ∧
      ∀ e' ∈ (generate_stock_popularity_ranking exampleAnalyze ["A", "B"]
          20 "" 7).top_stocks,
        e'.average_popularity_score ≤ e.average_popularity_score :=
  (ranking_sorted_and_hottest exampleAnalyze ["A", "B"] 20 "" 7).2.1
    { total_mentions_all_stocks := 3,
      total_popularity_score_all_stocks := 190,
      average_mentions_per_stock := 3/2,
      most_discussed_stock := "A",
      hottest_stock := "B" } (by
        norm_num [generate_stock_popularity_ranking, exampleAnalyze,
          exampleAnalysisA, exampleAnalysisB, make_ranking_entry,
          pysortDesc, List.insertionSort, List.orderedInsert, assignRanks,
          generate_summary_stats, pymaxBy, get_top_subreddit,
          generate_trend_description,
          show ("B" : String) ≠ "A" from by decide])

theorem processPost_eq_none (now cutoff min_relevance weight : ℚ)
    (keywords : List String) (name : String) (post : Post)
    (h : getQ post "created_utc" 0 < cutoff ∨
      calculate_post_relevance post keywords < min_relevance) :
    processPost now cutoff min_relevance weight keywords name post =
      none := by
  unfold processPost
  rcases h with h | h
  · rw [if_pos h]
  · by_cases h1 : getQ post "created_utc" 0 < cutoff
    · rw [if_pos h1]
    · rw [if_neg h1]
      simp only [if_pos h]

theorem survivingPosts_eq_nil (now cutoff min_relevance : ℚ)
    (keywords : List String) (name : String) (lines : List (Option Post))
    (h : ∀ op ∈ lines, ∀ post, op = some post →
      getQ post "created_utc" 0 < cutoff ∨
      calculate_post_relevance post keywords < min_relevance) :
    survivingPosts now cutoff min_relevance keywords name lines = [] := by
  rw [survivingPosts, List.filterMap_eq_nil_iff]
  intro op hop
  cases op with
  | none => rfl
  | some post =>
      show processPost now cutoff min_relevance (weightOf name) keywords
        name post = none
      exact processPost_eq_none _ _ _ _ _ _ _ (h _ hop post rfl)

theorem mentions_sum_aux (fs : String → Option (List (Option Post)))
    (data_dir : String) (now cutoff min_relevance : ℚ)
    (keywords : List String) :
    ∀ subs : List String,
      ((((subs.filterMap fun name =>
          (processSubreddit fs data_dir now cutoff min_relevance keywords
            name).map fun d => (name, d)).map
        (fun x => x.2.posts)).map List.length)).sum =
      (subs.map fun name =>
        match fs (companyNewsPath data_dir name) with
        | none => 0
        | some lines =>
          (survivingPosts now cutoff min_relevance keywords name
            lines).length).sum := by
  intro subs
  induction subs with
  | nil => rfl
  | cons name rest ih =>
      rw [List.filterMap_cons, List.map_cons]
      cases hfs : fs (companyNewsPath data_dir name) with
      | none =>
          have hps : processSubreddit fs data_dir now cutoff min_relevance
              keywords name = none := by
            rw [processSubreddit, hfs]
          simp only [hps, Option.map_none', hfs, List.sum_cons, ih]
          omega
      | some lines =>
          have hps : processSubreddit fs data_dir now cutoff min_relevance
              keywords name = some
              { name := name
                mentions := (survivingPosts now cutoff min_relevance
                  keywords name lines).length
                popularity_score := ((survivingPosts now cutoff
                  min_relevance keywords name lines).map
                    (fun p => p.popularity_score)).sum
                posts := survivingPosts now cutoff min_relevance keywords
                  name lines } := by
            rw [processSubreddit, hfs]
          simp only [hps, Option.map_some', List.map_cons, List.sum_cons,
            ih]

/-- C9: when every configured community's collection file is missing, or
no stored record passes both the `created_utc`-cutoff filter and the
relevance threshold, the analysis returns a well-formed zero-valued
result (`total_mentions = 0`, zero total and average popularity, empty
`top_posts`); and in general a missing file contributes nothing —
`total_mentions` is the sum, over communities whose files exist, of their
surviving record counts. -/
theorem analyzer_zero_result (fs : String → Option (List (Option Post)))
    (data_dir : String) (now : ℚ) (nowIso ticker : String)
    (subreddits : List String) (min_relevance days_back : ℚ) :
    ((∀ name ∈ subreddits, fs (companyNewsPath data_dir name) = none ∨
        (∀ lines, fs (companyNewsPath data_dir name) = some lines →
          ∀ op ∈ lines, ∀ post, op = some post →
            getQ post "created_utc" 0 < now - days_back * 24 * 3600 ∨
            calculate_post_relevance post (generate_stock_keywords ticker)
              < min_relevance)) →
      (analyze_stock_popularity fs data_dir now nowIso ticker subreddits
        min_relevance days_back).total_mentions = 0 ∧
      (analyze_stock_popularity fs data_dir now nowIso ticker subreddits
        min_relevance days_back).total_popularity_score = 0 ∧
      (analyze_stock_popularity fs data_dir now nowIso ticker subreddits
        min_relevance days_back).average_popularity_score = 0 ∧
      (analyze_stock_popularity fs data_dir now nowIso ticker subreddits
        min_relevance days_back).top_posts = []) ∧
    (analyze_stock_popularity fs data_dir now nowIso ticker subreddits
        min_relevance days_back).total_mentions =
      (subreddits.map fun name =>
        match fs (companyNewsPath data_dir name) with
        | none => 0
        | some lines =>
          (survivingPosts now (now - days_back * 24 * 3600) min_relevance
            (generate_stock_keywords ticker) name lines).length).sum := by
  constructor
  · intro h
    have hflat : ((subreddits.filterMap fun name =>
        (processSubreddit fs data_dir now (now - days_back * 24 * 3600)
          min_relevance (generate_stock_keywords ticker) name).map
          fun d => (name, d)).map (fun x => x.2.posts)).flatten = [] := by
      rw [List.flatten_eq_nil_iff]
      intro l hl
      rw [List.mem_map] at hl
      obtain ⟨x, hx, rfl⟩ := hl
      rw [List.mem_filterMap] at hx
      obtain ⟨name, hname, hg⟩ := hx
      cases hps : processSubreddit fs data_dir now
          (now - days_back * 24 * 3600) min_relevance
          (generate_stock_keywords ticker) name with
      | none =>
          rw [hps] at hg
          simp at hg
      | some d =>
          rw [hps] at hg
          obtain rfl : (name, d) = x := by simpa using hg
          show d.posts = []
          rcases h name hname with hnone | hall
          · rw [processSubreddit, hnone] at hps
            simp at hps
          · cases hfs : fs (companyNewsPath data_dir name) with
            | none =>
                rw [processSubreddit, hfs] at hps
                simp at hps
            | some lines =>
                rw [processSubreddit, hfs] at hps
                have hd := Option.some_inj.mp hps
                rw [← hd]
                exact survivingPosts_eq_nil now
                  (now - days_back * 24 * 3600) min_relevance
                  (generate_stock_keywords ticker) name lines
                  (hall lines hfs)
    refine ⟨?_, ?_, ?_, ?_⟩
    · show ((subreddits.filterMap fun name =>
          (processSubreddit fs data_dir now (now - days_back * 24 * 3600)
            min_relevance (generate_stock_keywords ticker) name).map
            fun d => (name, d)).map (fun x => x.2.posts)).flatten.length = 0
      rw [hflat]
      rfl
    · show (((subreddits.filterMap fun name =>
          (processSubreddit fs data_dir now (now - days_back * 24 * 3600)
            min_relevance (generate_stock_keywords ticker) name).map
            fun d => (name, d)).map (fun x => x.2.posts)).flatten.map
          (fun p => p.popularity_score)).sum = 0
      rw [hflat]
      rfl
    · show (if 0 < ((subreddits.filterMap fun name =>
          (processSubreddit fs data_dir now (now - days_back * 24 * 3600)
            min_relevance (generate_stock_keywords ticker) name).map
            fun d => (name, d)).map (fun x => x.2.posts)).flatten.length
          then _ / _ else 0) = 0
      rw [hflat]
      rfl
    · show (pysortDesc (fun p => p.popularity_score)
          ((subreddits.filterMap fun name =>
            (processSubreddit fs data_dir now
              (now - days_back * 24 * 3600) min_relevance
              (generate_stock_keywords ticker) name).map
              fun d => (name, d)).map
            (fun x => x.2.posts)).flatten).take 10 = []
      rw [hflat]
      rfl
  · show ((subreddits.filterMap fun name =>
        (processSubreddit fs data_dir now (now - days_back * 24 * 3600)
          min_relevance (generate_stock_keywords ticker) name).map
          fun d => (name, d)).map (fun x => x.2.posts)).flatten.length = _
    rw [List.length_flatten]
    exact mentions_sum_aux fs data_dir now (now - days_back * 24 * 3600)
      min_relevance (generate_stock_keywords ticker) subreddits

/-- Witness for `analyzer_zero_result`: with no collection file present at
all (`fs` empty), analyzing `"AAPL"` over the default communities returns
the zero-valued result. -/
theorem analyzer_zero_result_witness :
    (analyze_stock_popularity (fun _ => none) "data/reddit_data" 1000000
      "2024-01-01T00:00:00" "AAPL" STOCK_SUBREDDITS (1/10)
      7).total_mentions = 0 ∧
    (analyze_stock_popularity (fun _ => none) "data/reddit_data" 1000000
      "2024-01-01T00:00:00" "AAPL" STOCK_SUBREDDITS (1/10)
      7).total_popularity_score = 0 ∧
    (analyze_stock_popularity (fun _ => none) "data/reddit_data" 1000000
      "2024-01-01T00:00:00" "AAPL" STOCK_SUBREDDITS (1/10)
      7).average_popularity_score = 0 ∧
    (analyze_stock_popularity (fun _ => none) "data/reddit_data" 1000000
      "2024-01-01T00:00:00" "AAPL" STOCK_SUBREDDITS (1/10)
      7).top_posts = [] :=
  (analyzer_zero_result (fun _ => none) "data/reddit_data" 1000000
    "2024-01-01T00:00:00" "AAPL" STOCK_SUBREDDITS (1/10) 7).1
    (fun _ _ => Or.inl rfl)

/-- C10: the analysis depends only on the files located at
`<data_dir>/company_news/<community>.jsonl` — for any two filesystem
states that agree on every such path, `analyze_stock_popularity` produces
identical results for every ticker, community list, threshold and
lookback window (the run timestamp `nowIso` being an explicit input);
files under any other category directory are never read. -/
theorem analyzer_reads_only_company_news
    (fs1 fs2 : String → Option (List (Option Post))) (data_dir : String)
    (now : ℚ) (nowIso ticker : String) (subreddits : List String)
    (min_relevance days_back : ℚ)
    (h : ∀ name : String, fs1 (companyNewsPath data_dir name) =
      fs2 (companyNewsPath data_dir name)) :
    analyze_stock_popularity fs1 data_dir now nowIso ticker subreddits
      min_relevance days_back =
    analyze_stock_popularity fs2 data_dir now nowIso ticker subreddits
      min_relevance days_back := by
  have hps : ∀ name : String,
      processSubreddit fs1 data_dir now (now - days_back * 24 * 3600)
        min_relevance (generate_stock_keywords ticker) name =
      processSubreddit fs2 data_dir now (now - days_back * 24 * 3600)
        min_relevance (generate_stock_keywords ticker) name := by
    intro name
    rw [processSubreddit, processSubreddit, h name]
  have hbd : ∀ subs : List String,
      (subs.filterMap fun name =>
        (processSubreddit fs1 data_dir now (now - days_back * 24 * 3600)
          min_relevance (generate_stock_keywords ticker) name).map
          fun d => (name, d)) =
      (subs.filterMap fun name =>
        (processSubreddit fs2 data_dir now (now - days_back * 24 * 3600)
          min_relevance (generate_stock_keywords ticker) name).map
          fun d => (name, d)) := by
    intro subs
    induction subs with
    | nil => rfl
    | cons name rest ih =>
        rw [List.filterMap_cons, List.filterMap_cons, hps name, ih]
  simp only [analyze_stock_popularity]
  rw [hbd subreddits]

/-- Witness for `analyzer_reads_only_company_news`: a filesystem holding
one extra file outside the `company_news` directory (here at the path
`""`) yields exactly the same analysis as the empty filesystem. -/
theorem analyzer_reads_only_company_news_witness :
    analyze_stock_popularity
      (fun p => if p = "" then
        some [some [("id", Value.str "g1"), ("title", Value.str "AAPL")]]
        else none) "d" 1000000 "2024-01-01T00:00:00" "AAPL"
      STOCK_SUBREDDITS (1/10) 7 =
    analyze_stock_popularity (fun _ => none) "d" 1000000
      "2024-01-01T00:00:00" "AAPL" STOCK_SUBREDDITS (1/10) 7 :=
  analyzer_reads_only_company_news
    (fun p => if p = "" then
      some [some [("id", Value.str "g1"), ("title", Value.str "AAPL")]]
      else none) (fun _ => none) "d" 1000000 "2024-01-01T00:00:00" "AAPL"
    STOCK_SUBREDDITS (1/10) 7 (by
      intro name
      have hne : companyNewsPath "d" name ≠ "" := by
        intro he
        have hlen := congrArg String.length he
        rw [companyNewsPath] at hlen
        simp [String.length_append] at hlen
        exact absurd hlen.2 (by decide)
      simp [hne])
